import Mathlib

/-!
Verification development for the audio2txt orchestration core
(`packages/core/audio2txt/pipeline/transcription_pipeline.py` together with
the data model in `packages/core/audio2txt/models/transcript.py`).

Shallow embedding conventions:
* Times (seconds) are modelled as rationals; the Python code stores floats
  but every operation the pipeline performs on them is order/arithmetic
  based, so exact arithmetic is the faithful model of the algorithm.
* Fallible async calls (`transcribe`, `diarize`, `unload_model`) are
  modelled as `Except E _` values: the value the awaited call would
  produce, or the exception it would raise.
* `asyncio.gather` is modelled by an explicit completion schedule
  (`order : List Nat`): each entry is the index of the task that completes
  next, and since gather stores every result at the argument position of
  its task, the schedule covers every index of a run in which all tasks
  complete.  Theorems quantify over all such schedules.
* The `created_at` field of `Transcript` (a wall-clock timestamp populated
  by a default factory) is not modelled; no claim concerns it.
-/

namespace Audio2Txt

/-- Segment model from `models/transcript.py`: one transcribed span. -/
structure Segment where
  id : String
  start : ℚ
  «end» : ℚ
  text : String
  speaker_id : Option String
  confidence : Option ℚ
  language : String
deriving DecidableEq, Repr

/-- Speaker model from `models/transcript.py`. -/
structure Speaker where
  id : String
  name : Option String
  total_speaking_time : ℚ
  segment_count : Nat
deriving DecidableEq, Repr

/-- One diarization timestamp dictionary as produced by
`PyannoteDiarizationEngine.diarize`: keys `start`, `end`, `speaker_id`. -/
structure Turn where
  start : ℚ
  «end» : ℚ
  speaker_id : String
deriving DecidableEq, Repr

/-- Transcript model from `models/transcript.py` (metadata as an
association list; `created_at` not modelled, see the header). -/
structure Transcript where
  id : String
  audio_id : String
  segments : List Segment
  speakers : List Speaker
  language : String
  processing_time : ℚ
  metadata : List (String × String)
deriving DecidableEq, Repr

/-- Temporal overlap computed inside `_merge_transcript_with_diarization`:
`max(0, min(segment.end, ts.end) - max(segment.start, ts.start))`. -/
def overlap (s : Segment) (t : Turn) : ℚ :=
  max 0 (min s.«end» t.«end» - max s.start t.start)

/-- Python truthiness of the `best_speaker` variable, which is either
`None` or a string: `None` and the empty string are falsy. -/
def truthyOpt : Option String → Bool
  | none => false
  | some str => str != ""

/-- One iteration of the inner loop of
`_merge_transcript_with_diarization`: replace the accumulator exactly when
the overlap with the current timestamp is strictly greater. -/
def bestStep (s : Segment) (acc : Option String × ℚ) (t : Turn) : Option String × ℚ :=
  let ov := overlap s t
  if acc.2 < ov then (some t.speaker_id, ov) else acc

/-- The inner loop of `_merge_transcript_with_diarization` over all
timestamps, started from `best_speaker = None`, `max_overlap = 0.0`. -/
def findBest (s : Segment) (timestamps : List Turn) : Option String × ℚ :=
  timestamps.foldl (bestStep s) (none, 0)

/-- The per-segment body of `_merge_transcript_with_diarization`:
after the scan, `if best_speaker and max_overlap > 0: segment.speaker_id
= best_speaker`. -/
def mergeSegment (s : Segment) (timestamps : List Turn) : Segment :=
  let b := findBest s timestamps
  if truthyOpt b.1 = true ∧ 0 < b.2 then { s with speaker_id := b.1 } else s

/-- Embeds `TranscriptionPipeline._merge_transcript_with_diarization`: runs the
per-segment loop over the transcript segments and then assigns
`transcript.speakers = speakers`. -/
def _merge_transcript_with_diarization (transcript : Transcript)
    (speakers : List Speaker) (timestamps : List Turn) : Transcript :=
  { transcript with
    segments := transcript.segments.map (fun seg => mergeSegment seg timestamps)
    speakers := speakers }

/-! ### Lemmas about the inner selection loop -/

/-- If every turn of `l` has overlap strictly below `M` and the running
maximum is strictly below `M`, then after scanning `l` the running maximum
is still strictly below `M`. -/
theorem foldl_bestStep_lt (s : Segment) (l : List Turn) (M : ℚ) :
    ∀ acc : Option String × ℚ, (∀ u ∈ l, overlap s u < M) → acc.2 < M →
      (l.foldl (bestStep s) acc).2 < M := by
  induction l with
  | nil => intro acc _ hacc; simpa using hacc
  | cons u l ih =>
    intro acc hl hacc
    simp only [List.foldl_cons]
    refine ih _ (fun v hv => hl v (List.mem_cons_of_mem _ hv)) ?_
    by_cases hlt : acc.2 < overlap s u
    · simpa [bestStep, hlt] using hl u (List.mem_cons_self u l)
    · simpa [bestStep, hlt] using hacc

/-- If no turn of `l` has overlap strictly above the running maximum, the
scan leaves the accumulator untouched. -/
theorem foldl_bestStep_noupdate (s : Segment) (l : List Turn) :
    ∀ acc : Option String × ℚ, (∀ u ∈ l, overlap s u ≤ acc.2) →
      l.foldl (bestStep s) acc = acc := by
  induction l with
  | nil => intro acc _; rfl
  | cons u l ih =>
    intro acc hl
    have hu : ¬ acc.2 < overlap s u := not_lt.mpr (hl u (List.mem_cons_self u l))
    have hstep : bestStep s acc u = acc := by simp [bestStep, hu]
    simp only [List.foldl_cons, hstep]
    exact ih acc (fun v hv => hl v (List.mem_cons_of_mem _ hv))

/-- The scan selects the first turn attaining the strictly greatest
overlap: turns before `t` all have strictly smaller overlap, turns after
`t` have at most its overlap, and the starting accumulator is below it. -/
theorem foldl_bestStep_select (s : Segment) (l1 l2 : List Turn) (t : Turn)
    (acc : Option String × ℚ)
    (hl1 : ∀ u ∈ l1, overlap s u < overlap s t)
    (hacc : acc.2 < overlap s t)
    (hl2 : ∀ u ∈ l2, overlap s u ≤ overlap s t) :
    (l1 ++ t :: l2).foldl (bestStep s) acc = (some t.speaker_id, overlap s t) := by
  rw [List.foldl_append]
  have h1 : (l1.foldl (bestStep s) acc).2 < overlap s t :=
    foldl_bestStep_lt s l1 (overlap s t) acc hl1 hacc
  simp only [List.foldl_cons]
  have hstep : bestStep s (l1.foldl (bestStep s) acc) t
      = (some t.speaker_id, overlap s t) := by
    simp [bestStep, h1]
  rw [hstep]
  exact foldl_bestStep_noupdate s l2 _ (fun v hv => hl2 v hv)

/-- The first component produced by the scan is either the starting one or
the speaker id of some turn in the scanned list. -/
theorem foldl_bestStep_provenance (s : Segment) (l : List Turn) :
    ∀ acc : Option String × ℚ,
      (l.foldl (bestStep s) acc).1 = acc.1 ∨
        ∃ u ∈ l, (l.foldl (bestStep s) acc).1 = some u.speaker_id := by
  induction l with
  | nil => intro acc; exact Or.inl rfl
  | cons u l ih =>
    intro acc
    simp only [List.foldl_cons]
    rcases ih (bestStep s acc u) with h | ⟨v, hv, hvs⟩
    · by_cases hlt : acc.2 < overlap s u
      · right
        refine ⟨u, List.mem_cons_self u l, ?_⟩
        rw [h]
        simp [bestStep, hlt]
      · left
        rw [h]
        simp [bestStep, hlt]
    · right; exact ⟨v, List.mem_cons_of_mem _ hv, hvs⟩

/-- The per-segment merge changes at most `speaker_id`. -/
theorem mergeSegment_frame (s : Segment) (ts : List Turn) :
    (mergeSegment s ts).id = s.id ∧ (mergeSegment s ts).start = s.start ∧
    (mergeSegment s ts).«end» = s.«end» ∧ (mergeSegment s ts).text = s.text ∧
    (mergeSegment s ts).confidence = s.confidence ∧
    (mergeSegment s ts).language = s.language := by
  by_cases h : truthyOpt (findBest s ts).1 = true ∧ 0 < (findBest s ts).2
  · simp [mergeSegment, h]
  · simp [mergeSegment, h]

/-! ### Concrete inputs used by witnesses and counterexamples.
These are the scenario of the specification (segments `(0,2,"A")`,
`(2,5,"B")`; turns `(0,3,"S1")`, `(3,5,"S2")`) plus an empty-id turn. -/

def segA : Segment := ⟨"A", 0, 2, "hello", none, none, "zh"⟩

def segB : Segment := ⟨"B", 2, 5, "world", none, none, "zh"⟩

def segC : Segment := ⟨"C", 10, 11, "later", none, none, "zh"⟩

def turnS1 : Turn := ⟨0, 3, "S1"⟩

def turnS2 : Turn := ⟨3, 5, "S2"⟩

def segCex : Segment := ⟨"X", 0, 1, "edge", none, none, "zh"⟩

def turnCex : Turn := ⟨0, 1, ""⟩

def transcriptEx : Transcript := ⟨"t1", "a1", [segA, segB], [], "zh", 0, []⟩

def speakerS1 : Speaker := ⟨"S1", none, 3, 1⟩

/-! ### Claim C1 -/

/-- C1 (as stated) is false: for a segment and a single diarization turn
whose speaker id is the empty string, the greatest overlap is `1 > 0` and
the selected turn is that turn, yet the merge step does not set
`speaker_id` to the selected id; it leaves it `null`.  The Python guard
`if best_speaker and max_overlap > 0` rejects the falsy empty string. -/
theorem merge_greatest_overlap_claim_cex :
    findBest segCex [turnCex] = (some "", 1) ∧
    (0 : ℚ) < 1 ∧
    (mergeSegment segCex [turnCex]).speaker_id ≠ some turnCex.speaker_id ∧
    (mergeSegment segCex [turnCex]).speaker_id = none := by
  have h4 : (mergeSegment segCex [turnCex]).speaker_id = none := by
    norm_num [mergeSegment, findBest, bestStep, overlap, truthyOpt, segCex, turnCex,
      min_def, max_def]
  refine ⟨?_, by norm_num, ?_, h4⟩
  · norm_num [findBest, bestStep, overlap, segCex, turnCex, min_def, max_def]
  · rw [h4]
    simp

/-- C1 (amended): the merge step maps the per-segment body over the
segments; for each segment it selects the turn with the strictly greatest
overlap, ties resolved in favour of the turn appearing earlier in the
diarization turn list, and if that greatest overlap is `> 0` AND the
selected turn carries a non-empty speaker id it sets `speaker_id` to that
id; if no turn has positive overlap the segment keeps `speaker_id` null.
The scenario of the claim (segments `(0,2,"A")`, `(2,5,"B")`; turns
`(0,3,"S1")`, `(3,5,"S2")` giving `S1`, `S2`) is checked in the witness. -/
theorem merge_assigns_first_greatest_overlap (tr : Transcript) (sp : List Speaker)
    (s : Segment) (ts l1 l2 : List Turn) (t : Turn) :
    (_merge_transcript_with_diarization tr sp ts).segments
        = tr.segments.map (fun seg => mergeSegment seg ts) ∧
    (ts = l1 ++ t :: l2 →
      (∀ u ∈ l1, overlap s u < overlap s t) →
      (∀ u ∈ ts, overlap s u ≤ overlap s t) →
      0 < overlap s t →
      t.speaker_id ≠ "" →
      (mergeSegment s ts).speaker_id = some t.speaker_id) ∧
    (s.speaker_id = none → (∀ u ∈ ts, overlap s u = 0) →
      (mergeSegment s ts).speaker_id = none) := by
  refine ⟨rfl, ?_, ?_⟩
  · intro hts hl1 hall hpos hne
    subst hts
    have hl2 : ∀ u ∈ l2, overlap s u ≤ overlap s t := by
      intro u hu
      refine hall u ?_
      simp only [List.mem_append, List.mem_cons]
      exact Or.inr (Or.inr hu)
    have hsel : findBest s (l1 ++ t :: l2) = (some t.speaker_id, overlap s t) :=
      foldl_bestStep_select s l1 l2 t (none, 0) hl1 (by simpa using hpos) hl2
    simp [mergeSegment, hsel, truthyOpt, hne, hpos]
  · intro hnull hzero
    have hfix : findBest s ts = (none, 0) :=
      foldl_bestStep_noupdate s ts (none, 0) (fun u hu => by simp [hzero u hu])
    simp [mergeSegment, hfix, truthyOpt, hnull]

/-- Witness for C1: the claim scenario.  Segment A gets `S1`, segment B
gets `S2` (first-greatest-overlap selection), and a segment overlapping
no turn keeps `speaker_id` null. -/
theorem merge_assigns_first_greatest_overlap_witness :
    (mergeSegment segA [turnS1, turnS2]).speaker_id = some "S1" ∧
    (mergeSegment segB [turnS1, turnS2]).speaker_id = some "S2" ∧
    (mergeSegment segC [turnS1, turnS2]).speaker_id = none := by
  refine ⟨?_, ?_, ?_⟩
  · exact (merge_assigns_first_greatest_overlap transcriptEx [] segA
      [turnS1, turnS2] [] [turnS2] turnS1).2.1 rfl (by simp)
      (by norm_num [overlap, segA, turnS1, turnS2, min_def, max_def])
      (by norm_num [overlap, segA, turnS1, min_def, max_def])
      (by simp [turnS1])
  · exact (merge_assigns_first_greatest_overlap transcriptEx [] segB
      [turnS1, turnS2] [turnS1] [] turnS2).2.1 rfl
      (by norm_num [overlap, segB, turnS1, turnS2, min_def, max_def])
      (by norm_num [overlap, segB, turnS1, turnS2, min_def, max_def])
      (by norm_num [overlap, segB, turnS2, min_def, max_def])
      (by simp [turnS2])
  · exact (merge_assigns_first_greatest_overlap transcriptEx [] segC
      [turnS1, turnS2] [] [] turnS1).2.2 rfl
      (by norm_num [overlap, segC, turnS1, turnS2, min_def, max_def])

/-! ### Claim C2 -/

/-- C2: the merge step returns a transcript with exactly as many segments,
in the same order, and for each position every field except `speaker_id`
(id, start, end, text, confidence, language) is unchanged. -/
theorem merge_frame_preserves_segments (tr : Transcript) (sp : List Speaker)
    (ts : List Turn) :
    (_merge_transcript_with_diarization tr sp ts).segments.length
        = tr.segments.length ∧
    ∀ i : Nat,
      (((_merge_transcript_with_diarization tr sp ts).segments[i]?).map Segment.id
          = (tr.segments[i]?).map Segment.id) ∧
      (((_merge_transcript_with_diarization tr sp ts).segments[i]?).map Segment.start
          = (tr.segments[i]?).map Segment.start) ∧
      (((_merge_transcript_with_diarization tr sp ts).segments[i]?).map Segment.end
          = (tr.segments[i]?).map Segment.end) ∧
      (((_merge_transcript_with_diarization tr sp ts).segments[i]?).map Segment.text
          = (tr.segments[i]?).map Segment.text) ∧
      (((_merge_transcript_with_diarization tr sp ts).segments[i]?).map Segment.confidence
          = (tr.segments[i]?).map Segment.confidence) ∧
      (((_merge_transcript_with_diarization tr sp ts).segments[i]?).map Segment.language
          = (tr.segments[i]?).map Segment.language) := by
  constructor
  · simp [_merge_transcript_with_diarization]
  · intro i
    rcases h : tr.segments[i]? with _ | s
    · simp [_merge_transcript_with_diarization, List.getElem?_map, h]
    · obtain ⟨e1, e2, e3, e4, e5, e6⟩ := mergeSegment_frame s ts
      simp [_merge_transcript_with_diarization, List.getElem?_map, h, e1, e2, e3, e4, e5, e6]

/-! ### Claim C3 -/

/-- C3: with inputs as the capabilities produce them (the transcription
engine creates every segment with `speaker_id = None`, and the pyannote
diarization engine registers the speaker id of every returned timestamp
in the returned speaker list), after merge every segment has `speaker_id`
either null or the id of one of the speakers attached to the transcript. -/
theorem merge_speaker_id_invariant (tr : Transcript) (sp : List Speaker)
    (ts : List Turn)
    (hseg : ∀ s ∈ tr.segments, s.speaker_id = none)
    (hts : ∀ u ∈ ts, u.speaker_id ∈ sp.map Speaker.id) :
    ∀ s ∈ (_merge_transcript_with_diarization tr sp ts).segments,
      s.speaker_id = none ∨
        ∃ k ∈ (_merge_transcript_with_diarization tr sp ts).speakers,
          s.speaker_id = some k.id := by
  intro s hs
  simp only [_merge_transcript_with_diarization, List.mem_map] at hs
  obtain ⟨s0, hs0, rfl⟩ := hs
  by_cases hcond : truthyOpt (findBest s0 ts).1 = true ∧ 0 < (findBest s0 ts).2
  · have hval : (mergeSegment s0 ts).speaker_id = (findBest s0 ts).1 := by
      simp [mergeSegment, hcond]
    rcases foldl_bestStep_provenance s0 ts (none, 0) with hnone | ⟨u, hu, hus⟩
    · exfalso
      have : (findBest s0 ts).1 = none := hnone
      rw [this] at hcond
      simp [truthyOpt] at hcond
    · right
      obtain ⟨k, hk, hkid⟩ := List.mem_map.mp (hts u hu)
      refine ⟨k, by simpa [_merge_transcript_with_diarization] using hk, ?_⟩
      have : (findBest s0 ts).1 = some u.speaker_id := hus
      rw [hval, this, ← hkid]
  · left
    have : mergeSegment s0 ts = s0 := by simp [mergeSegment, hcond]
    rw [this]
    exact hseg s0 hs0

/-- Witness for C3 at the scenario inputs with speaker list `[S1]`,
instantiated at the first merged segment. -/
theorem merge_speaker_id_invariant_witness :
    (mergeSegment segA [turnS1]).speaker_id = none ∨
      ∃ k ∈ (_merge_transcript_with_diarization transcriptEx [speakerS1]
        [turnS1]).speakers,
        (mergeSegment segA [turnS1]).speaker_id = some k.id :=
  merge_speaker_id_invariant transcriptEx [speakerS1] [turnS1]
    (by decide) (by decide) (mergeSegment segA [turnS1])
    (by simp [_merge_transcript_with_diarization, transcriptEx])

/-! ### Claim C10 -/

/-- C10: when the selected best-overlapping turn carries the empty-string
speaker id, the merge step leaves the segment with `speaker_id` null even
though the greatest overlap is strictly positive. -/
theorem merge_empty_speaker_id_keeps_null (s : Segment) (ts l1 l2 : List Turn)
    (t : Turn)
    (hts : ts = l1 ++ t :: l2)
    (hl1 : ∀ u ∈ l1, overlap s u < overlap s t)
    (hall : ∀ u ∈ ts, overlap s u ≤ overlap s t)
    (hpos : 0 < overlap s t)
    (hempty : t.speaker_id = "")
    (hnull : s.speaker_id = none) :
    (mergeSegment s ts).speaker_id = none := by
  subst hts
  have hl2 : ∀ u ∈ l2, overlap s u ≤ overlap s t := by
    intro u hu
    refine hall u ?_
    simp only [List.mem_append, List.mem_cons]
    exact Or.inr (Or.inr hu)
  have hsel : findBest s (l1 ++ t :: l2) = (some t.speaker_id, overlap s t) :=
    foldl_bestStep_select s l1 l2 t (none, 0) hl1 (by simpa using hpos) hl2
  simp [mergeSegment, hsel, truthyOpt, hempty, hnull]

/-- Witness for C10: a single empty-id turn fully covering the segment. -/
theorem merge_empty_speaker_id_keeps_null_witness :
    (mergeSegment segCex [turnCex]).speaker_id = none :=
  merge_empty_speaker_id_keeps_null segCex [turnCex] [] [] turnCex rfl
    (by simp)
    (by norm_num [overlap, segCex, turnCex, min_def, max_def])
    (by norm_num [overlap, segCex, turnCex, min_def, max_def])
    rfl rfl

/-! ### Pipeline orchestration (`process`, parallel and sequential modes)

An awaited capability call is modelled by the `Except` value it produces:
`Except.ok` for a normal return, `Except.error` for a raised exception.
`asyncio.gather` without `return_exceptions` re-raises as soon as a task
fails, so `_process_parallel` yields an error whenever either input does
(when both fail, the model reports the transcription error; the runtime
reports whichever failed first chronologically — in every case one of the
two errors, which is all the claims use). -/

/-- Success test for an `Except` value. -/
def isOk {E A : Type} : Except E A → Bool
  | .ok _ => true
  | .error _ => false

/-- Embeds `TranscriptionPipeline._process_parallel`: gather both results, then
merge. -/
def _process_parallel {E : Type} (transcribe_result : Except E Transcript)
    (diarize_result : Except E (List Speaker × List Turn)) :
    Except E Transcript :=
  match transcribe_result, diarize_result with
  | .ok transcript, .ok (speakers, timestamps) =>
      .ok (_merge_transcript_with_diarization transcript speakers timestamps)
  | .error e, _ => .error e
  | .ok _, .error e => .error e

/-- Embeds `TranscriptionPipeline._process_sequential`: await transcription, then
diarization, then merge. -/
def _process_sequential {E : Type} (transcribe_result : Except E Transcript)
    (diarize_result : Except E (List Speaker × List Turn)) :
    Except E Transcript :=
  match transcribe_result with
  | .error e => .error e
  | .ok transcript =>
    match diarize_result with
    | .error e => .error e
    | .ok (speakers, timestamps) =>
        .ok (_merge_transcript_with_diarization transcript speakers timestamps)

/-- Embeds `TranscriptionPipeline.process`: mode dispatch on
`enable_diarization and self.diarization_engine and parallel`, then
`transcript.processing_time = time.time() - start_time` on success
(`elapsed` stands for that wall-clock duration); an exception is logged
and re-raised. -/
def process {E : Type} (enable_diarization has_diarization_engine parallel : Bool)
    (transcribe_result : Except E Transcript)
    (diarize_result : Except E (List Speaker × List Turn))
    (elapsed : ℚ) : Except E Transcript :=
  let core : Except E Transcript :=
    if enable_diarization && has_diarization_engine && parallel then
      _process_parallel transcribe_result diarize_result
    else if enable_diarization && has_diarization_engine then
      _process_sequential transcribe_result diarize_result
    else
      transcribe_result
  match core with
  | .ok transcript => .ok { transcript with processing_time := elapsed }
  | .error e => .error e

/-! ### Claim C4 -/

/-- C4: in parallel mode (diarization enabled, engine configured,
parallel), if either the transcription call or the diarization call
fails, `process` fails with one of those errors and returns no
Transcript; the result of the other call, even when available, is
discarded. -/
theorem process_parallel_fail_fast {E : Type}
    (transcribe_result : Except E Transcript)
    (diarize_result : Except E (List Speaker × List Turn)) (elapsed : ℚ)
    (h : isOk transcribe_result = false ∨ isOk diarize_result = false) :
    ∃ e, process true true true transcribe_result diarize_result elapsed
        = .error e ∧
      (transcribe_result = .error e ∨ diarize_result = .error e) := by
  cases transcribe_result with
  | error e => exact ⟨e, by simp [process, _process_parallel], Or.inl rfl⟩
  | ok t =>
    cases diarize_result with
    | error e => exact ⟨e, by simp [process, _process_parallel], Or.inr rfl⟩
    | ok pr => simp [isOk] at h

/-- Witness for C4: a failing transcription next to a completed
diarization result yields that error and no Transcript. -/
theorem process_parallel_fail_fast_witness :
    ∃ e, process true true true (Except.error "boom" : Except String Transcript)
        (Except.ok ([], [])) 0 = .error e ∧
      ((Except.error "boom" : Except String Transcript) = .error e ∨
        (Except.ok ([], []) : Except String (List Speaker × List Turn))
          = .error e) :=
  process_parallel_fail_fast (Except.error "boom") (Except.ok ([], [])) 0
    (Or.inl rfl)

/-! ### Claim C9 -/

/-- Concrete transcript with a recorded processing time of 1 second. -/
def transcriptNull : Transcript := ⟨"t2", "a2", [segA], [], "zh", 1, []⟩

/-- C9 (as stated) is false on one point: even with diarization disabled
the pipeline overwrites `processing_time` with the wall-clock duration of
the call, so the Transcript is not returned fully unchanged. -/
theorem process_no_diarization_unchanged_cex :
    process false true true (Except.ok transcriptNull : Except String Transcript)
        (Except.ok ([], [])) 2 ≠ .ok transcriptNull ∧
    process false true true (Except.ok transcriptNull : Except String Transcript)
        (Except.ok ([], [])) 2
      = .ok { transcriptNull with processing_time := 2 } := by
  have h2 : process false true true
      (Except.ok transcriptNull : Except String Transcript)
      (Except.ok ([], [])) 2
      = .ok { transcriptNull with processing_time := 2 } := by
    simp [process]
  refine ⟨?_, h2⟩
  rw [h2]
  intro hEq
  have h3 : ({ transcriptNull with processing_time := 2 } : Transcript)
      = transcriptNull := Except.ok.inj hEq
  have h4 := congrArg Transcript.processing_time h3
  norm_num [transcriptNull] at h4

/-- C9 (amended): with `enable_diarization` false or no diarization
engine configured, `process` never looks at the diarization result (the
capability is not invoked) and returns the transcription Transcript with
only `processing_time` overwritten; in particular, since the
transcription capability produces empty `speakers` and null
`speaker_id`s, the result keeps them. -/
theorem process_no_diarization {E : Type}
    (enable_diarization has_diarization_engine parallel : Bool)
    (transcribe_result : Except E Transcript)
    (dr dr2 : Except E (List Speaker × List Turn)) (elapsed : ℚ)
    (h : enable_diarization = false ∨ has_diarization_engine = false) :
    (process enable_diarization has_diarization_engine parallel
        transcribe_result dr elapsed
      = process enable_diarization has_diarization_engine parallel
        transcribe_result dr2 elapsed) ∧
    (∀ t, transcribe_result = .ok t →
      process enable_diarization has_diarization_engine parallel
          transcribe_result dr elapsed
        = .ok { t with processing_time := elapsed }) ∧
    (∀ t, transcribe_result = .ok t → t.speakers = [] →
      (∀ s ∈ t.segments, s.speaker_id = none) →
      ∃ t2, process enable_diarization has_diarization_engine parallel
            transcribe_result dr elapsed = .ok t2 ∧
        t2.speakers = [] ∧ t2.segments = t.segments ∧
        (∀ s ∈ t2.segments, s.speaker_id = none)) := by
  have hc1 : (enable_diarization && has_diarization_engine && parallel) = false := by
    rcases h with h | h <;> simp [h]
  have hc2 : (enable_diarization && has_diarization_engine) = false := by
    rcases h with h | h <;> simp [h]
  refine ⟨by simp [process, hc1, hc2], ?_, ?_⟩
  · intro t ht
    simp [process, hc1, hc2, ht]
  · intro t ht hsp hnull
    refine ⟨{ t with processing_time := elapsed }, by simp [process, hc1, hc2, ht],
      by simpa using hsp, rfl, by simpa using hnull⟩

/-- Witness for C9: diarization disabled; the diarization result is
irrelevant and the output is the input transcript with only
`processing_time` replaced. -/
theorem process_no_diarization_witness :
    (process false true true (Except.ok transcriptNull : Except String Transcript)
        (Except.ok ([], [turnS1])) 2
      = process false true true (Except.ok transcriptNull)
        (Except.error "ignored") 2) ∧
    process false true true (Except.ok transcriptNull : Except String Transcript)
        (Except.ok ([], [turnS1])) 2
      = .ok { transcriptNull with processing_time := 2 } := by
  obtain ⟨h1, h2, h3⟩ := process_no_diarization false true true
    (Except.ok transcriptNull : Except String Transcript)
    (Except.ok ([], [turnS1])) (Except.error "ignored") 2 (Or.inl rfl)
  exact ⟨h1, h2 transcriptNull rfl⟩

/-! ### Resource lifecycle (`__aenter__` / `__aexit__`) -/

/-- Engine lifecycle calls issued by the pipeline context manager. -/
inductive EngineEvent where
  | load_transcription
  | load_diarization
  | unload_transcription
  | unload_diarization
deriving DecidableEq, Repr

/-- Embeds `TranscriptionPipeline.__aenter__`: load the transcription model,
then, if a diarization engine is configured, load its model.  The list
records the calls in issue order. -/
def __aenter__ (has_diarization_engine : Bool) : List EngineEvent :=
  .load_transcription ::
    (if has_diarization_engine then [.load_diarization] else [])

/-- Embeds `TranscriptionPipeline.__aexit__`: await
`transcription_engine.unload_model()`, then, if a diarization engine is
configured, await `diarization_engine.unload_model()`.  There is no
try/finally around the first call, so an exception there propagates at
once.  The first component lists the unload calls attempted in order;
the second is the exception the exit raises, if any. -/
def __aexit__ {E : Type} (has_diarization_engine : Bool)
    (unload_transcription_result unload_diarization_result : Except E Unit) :
    List EngineEvent × Option E :=
  match unload_transcription_result with
  | .error e => ([.unload_transcription], some e)
  | .ok _ =>
    if has_diarization_engine then
      match unload_diarization_result with
      | .error e => ([.unload_transcription, .unload_diarization], some e)
      | .ok _ => ([.unload_transcription, .unload_diarization], none)
    else ([.unload_transcription], none)

/-! ### Claim C8 -/

/-- C8 (as stated) is false on both points: with both engines configured
the exit unloads in acquisition order (transcription first, diarization
second), not in reverse; and an error while unloading the transcription
resource prevents the attempt to unload the diarization resource. -/
theorem aexit_reverse_order_cex :
    __aenter__ true = [.load_transcription, .load_diarization] ∧
    (__aexit__ true (Except.ok () : Except String Unit) (Except.ok ())).1
        = [.unload_transcription, .unload_diarization] ∧
    (__aexit__ true (Except.ok () : Except String Unit) (Except.ok ())).1
        ≠ [.unload_diarization, .unload_transcription] ∧
    EngineEvent.unload_diarization ∉
      (__aexit__ true (Except.error "boom" : Except String Unit)
        (Except.ok ())).1 := by
  refine ⟨rfl, rfl, by decide, by decide⟩

/-- C8 (amended): on exit the pipeline unloads the transcription engine
first and then, when a diarization engine is configured and the first
unload did not raise, the diarization engine — the same order as
acquisition; the exit completes without error exactly when the attempted
unloads all succeed.  (That `__aexit__` runs on every exit of the scope,
normal or exceptional, is the `async with` runtime contract.) -/
theorem aexit_unload_order {E : Type} (has_diarization_engine : Bool)
    (tu du : Except E Unit) :
    (__aexit__ has_diarization_engine tu du).1
        = .unload_transcription ::
          (if has_diarization_engine = true ∧ isOk tu = true then
            [EngineEvent.unload_diarization] else []) ∧
    ((__aexit__ has_diarization_engine tu du).2 = none ↔
      (isOk tu = true ∧ (has_diarization_engine = true → isOk du = true))) := by
  cases tu <;> cases du <;> cases has_diarization_engine <;>
    simp [__aexit__, isOk]

/-! ### Batch executor (`process_batch`)

`process_batch` starts one task per input (`process_with_semaphore`),
awaits them with `asyncio.gather(*tasks, return_exceptions=True)`, and
then walks the gathered list in index order, appending successes to
`results` and emitting a `logger.error` record naming `audio_paths[i]`
and the exception for each failure.

Model of gather: gather stores the result of task `i` at position `i` of
its output as the task completes.  `order` is the completion schedule —
the task indices in the chronological order in which they complete.  In a
run of gather every started task completes (normally or with an
exception, which `return_exceptions=True` turns into a stored value), so
a schedule of a real run mentions every index; theorems take that as a
hypothesis and hold for every such schedule.  The semaphore bounds how
many tasks run at once, which constrains the possible schedules (with
`max_concurrent = 1` the tasks run and complete one by one in input
order) but plays no part in where results are stored, so `max_concurrent`
does not otherwise appear in the data flow. -/

/-- One completion event: task `i` finishes and gather stores its
outcome at slot `i`. -/
def gatherStep {A : Type} (outcomes : List A) (slots : Nat → Option A)
    (i : Nat) : Nat → Option A :=
  fun j => if j = i then outcomes[i]? else slots j

/-- Slot contents after the whole completion schedule has run. -/
def gatherSlots {A : Type} (outcomes : List A) (order : List Nat) :
    Nat → Option A :=
  order.foldl (gatherStep outcomes) (fun _ => none)

/-- The list `asyncio.gather` returns: the filled slots read in argument
order. -/
def asyncio_gather {A : Type} (outcomes : List A) (order : List Nat) :
    List A :=
  (List.range outcomes.length).filterMap (gatherSlots outcomes order)

/-- Final slot contents: slot `j` holds the outcome of task `j` whenever
`j` completed, and is untouched otherwise. -/
theorem gatherSlots_foldl {A : Type} (outcomes : List A) (order : List Nat) :
    ∀ (init : Nat → Option A) (j : Nat),
      (order.foldl (gatherStep outcomes) init) j
        = if j ∈ order then outcomes[j]? else init j := by
  induction order with
  | nil => intro init j; simp
  | cons i rest ih =>
    intro init j
    simp only [List.foldl_cons]
    rw [ih]
    by_cases hjr : j ∈ rest
    · simp [hjr]
    · by_cases hji : j = i
      · subst hji
        simp [hjr, gatherStep]
      · simp [hjr, hji, gatherStep]

/-- Reading every position of a list through its optional indexing
returns the list itself. -/
theorem filterMap_getElem_range {A : Type} (l : List A) :
    (List.range l.length).filterMap (fun j => l[j]?) = l := by
  induction l with
  | nil => simp
  | cons a l ih =>
    have hfun : ((fun j => (a :: l)[j]?) ∘ Nat.succ) = fun j => l[j]? := by
      funext j
      simp
    simp only [List.length_cons, List.range_succ_eq_map, List.filterMap_cons,
      List.getElem?_cons_zero, List.filterMap_map, hfun, ih]

/-- For a schedule mentioning every task index, gather returns exactly
the task outcomes in argument order — independent of the schedule. -/
theorem asyncio_gather_complete {A : Type} (outcomes : List A)
    (order : List Nat) (h : ∀ j < outcomes.length, j ∈ order) :
    asyncio_gather outcomes order = outcomes := by
  unfold asyncio_gather
  have hcongr : ∀ j ∈ List.range outcomes.length,
      gatherSlots outcomes order j = outcomes[j]? := by
    intro j hj
    rw [gatherSlots, gatherSlots_foldl]
    rw [if_pos (h j (List.mem_range.mp hj))]
  rw [List.filterMap_congr hcongr]
  exact filterMap_getElem_range outcomes

/-- Collection-loop body of `process_batch`: a success is appended to
`results`, a failure is logged as an `(audio path, exception)` record. -/
def collectStep {I E A : Type} (acc : List A × List (I × E))
    (pr : I × Except E A) : List A × List (I × E) :=
  match pr.2 with
  | .ok t => (acc.1 ++ [t], acc.2)
  | .error e => (acc.1, acc.2 ++ [(pr.1, e)])

/-- The collection loop of `process_batch` over the gathered results,
paired with their audio paths (`for i, result in enumerate(transcripts)`
with `audio_paths[i]`).  First component: the returned `results` list;
second component: the `(audio path, exception)` records the loop sends to
`logger.error`. -/
def collectResults {I E A : Type} (pairs : List (I × Except E A)) :
    List A × List (I × E) :=
  pairs.foldl collectStep ([], [])

/-- The value of a successful outcome, if any. -/
def exceptOk {E A : Type} : Except E A → Option A
  | .ok a => some a
  | .error _ => none

/-- The error of a failed outcome, if any. -/
def exceptErr {E A : Type} : Except E A → Option E
  | .ok _ => none
  | .error e => some e

/-- Closed form of the collection loop from any accumulator. -/
theorem collectResults_foldl {I E A : Type} (pairs : List (I × Except E A)) :
    ∀ acc : List A × List (I × E),
      pairs.foldl collectStep acc
        = (acc.1 ++ pairs.filterMap (fun pr => exceptOk pr.2),
           acc.2 ++ pairs.filterMap
             (fun pr => (exceptErr pr.2).map (fun e => (pr.1, e)))) := by
  induction pairs with
  | nil => intro acc; simp
  | cons pr rest ih =>
    intro acc
    simp only [List.foldl_cons]
    rw [ih]
    rcases pr with ⟨p, r⟩
    cases r <;> simp [collectStep, exceptOk, exceptErr, List.filterMap_cons]

/-- Closed form of the collection loop. -/
theorem collectResults_eq {I E A : Type} (pairs : List (I × Except E A)) :
    collectResults pairs
      = (pairs.filterMap (fun pr => exceptOk pr.2),
         pairs.filterMap (fun pr => (exceptErr pr.2).map (fun e => (pr.1, e)))) := by
  rw [collectResults, collectResults_foldl]
  simp

/-- Zipping a list with its own image. -/
theorem zip_map_self {I A : Type} (l : List I) (f : I → A) :
    l.zip (l.map f) = l.map (fun a => (a, f a)) := by
  induction l with
  | nil => rfl
  | cons a l ih => simp [ih]

/-- Embeds `TranscriptionPipeline.process_batch`: per-input `process` outcomes,
gathered under the completion schedule, then collected.  Returns the
`results` list and the failure records (see `collectResults`). -/
def process_batch {I E : Type}
    (enable_diarization has_diarization_engine parallel : Bool)
    (transcribe_result : I → Except E Transcript)
    (diarize_result : I → Except E (List Speaker × List Turn))
    (elapsed : I → ℚ)
    (audio_paths : List I) (max_concurrent : Nat) (order : List Nat) :
    List Transcript × List (I × E) :=
  let outcomes := audio_paths.map (fun p =>
    process enable_diarization has_diarization_engine parallel
      (transcribe_result p) (diarize_result p) (elapsed p))
  let transcripts := asyncio_gather outcomes order
  collectResults (audio_paths.zip transcripts)

/-- Master closed form of `process_batch` under a complete completion
schedule. -/
theorem process_batch_eq {I E : Type}
    (eb hb pb : Bool) (trf : I → Except E Transcript)
    (drf : I → Except E (List Speaker × List Turn)) (elf : I → ℚ)
    (audio_paths : List I) (mc : Nat) (order : List Nat)
    (h : ∀ j < audio_paths.length, j ∈ order) :
    process_batch eb hb pb trf drf elf audio_paths mc order
      = (audio_paths.filterMap (fun p =>
           exceptOk (process eb hb pb (trf p) (drf p) (elf p))),
         audio_paths.filterMap (fun p =>
           (exceptErr (process eb hb pb (trf p) (drf p) (elf p))).map
             (fun e => (p, e)))) := by
  unfold process_batch
  dsimp only
  rw [asyncio_gather_complete _ _ (by simpa using h)]
  rw [zip_map_self, collectResults_eq]
  simp only [List.filterMap_map]
  exact Prod.ext rfl rfl

/-- A per-input outcome is exactly one of a success and a failure, so
the two collected lists partition the inputs. -/
theorem filterMap_ok_err_length {I E A : Type} (l : List I)
    (f : I → Except E A) :
    (l.filterMap (fun p => exceptOk (f p))).length
      + (l.filterMap (fun p => (exceptErr (f p)).map (fun e => (p, e)))).length
      = l.length := by
  induction l with
  | nil => simp
  | cons a l ih =>
    cases hf : f a with
    | error e =>
      have h1 : exceptOk (f a) = (none : Option A) := by rw [hf]; rfl
      have h2 : (exceptErr (f a)).map (fun e2 => (a, e2)) = some (a, e) := by
        rw [hf]; rfl
      simp only [List.filterMap_cons, h1, h2, List.length_cons]
      omega
    | ok t =>
      have h1 : exceptOk (f a) = some t := by rw [hf]; rfl
      have h2 : (exceptErr (f a)).map (fun e2 => (a, e2))
          = (none : Option (I × E)) := by rw [hf]; rfl
      simp only [List.filterMap_cons, h1, h2, List.length_cons]
      omega

/-! ### Concrete batch inputs for witnesses -/

/-- Per-item transcription outcome that fails exactly on input "b". -/
def trBatch : String → Except String Transcript :=
  fun p => if p = "b" then .error "decode failure" else .ok transcriptEx

/-- Per-item transcription outcome whose transcript records its input. -/
def trDistinct : String → Except String Transcript :=
  fun p => .ok { transcriptEx with id := p }

/-- Per-item diarization outcome (unused on the no-diarization path). -/
def drBatch : String → Except String (List Speaker × List Turn) :=
  fun _ => .ok ([], [])

/-- Per-item wall-clock durations. -/
def elBatch : String → ℚ := fun _ => 2

/-! ### Claim C5 -/

/-- C5: for every input list and every complete completion schedule, the
batch call completes (it is a total function — `return_exceptions=True`
turns per-item exceptions into values, so no exception escapes), a
failing item neither fails nor cancels any sibling (every non-failing
input contributes its transcript regardless of the other outcomes), each
failing input is recorded as an `(audio path, error)` pair in the
collection-loop log, failures are excluded from the returned results,
and the two lists partition the inputs (N inputs with one failure give
N - 1 transcripts; the call also succeeds when every input fails). -/
theorem process_batch_failure_isolation {I E : Type}
    (eb hb pb : Bool) (trf : I → Except E Transcript)
    (drf : I → Except E (List Speaker × List Turn)) (elf : I → ℚ)
    (audio_paths : List I) (mc : Nat) (order : List Nat)
    (h : ∀ j < audio_paths.length, j ∈ order) :
    (process_batch eb hb pb trf drf elf audio_paths mc order).1
        = audio_paths.filterMap (fun p =>
            exceptOk (process eb hb pb (trf p) (drf p) (elf p))) ∧
    (process_batch eb hb pb trf drf elf audio_paths mc order).2
        = audio_paths.filterMap (fun p =>
            (exceptErr (process eb hb pb (trf p) (drf p) (elf p))).map
              (fun e => (p, e))) ∧
    (process_batch eb hb pb trf drf elf audio_paths mc order).1.length
        + (process_batch eb hb pb trf drf elf audio_paths mc order).2.length
        = audio_paths.length := by
  rw [process_batch_eq eb hb pb trf drf elf audio_paths mc order h]
  exact ⟨rfl, rfl, filterMap_ok_err_length audio_paths _⟩

/-- Witness for C5: three inputs, the middle one failing, under a
schedule completing the last input first: two transcripts in input
order, one failure record, and 2 + 1 = 3. -/
theorem process_batch_failure_isolation_witness :
    (process_batch false false false trBatch drBatch elBatch
        ["a", "b", "c"] 2 [2, 0, 1]).1
      = [{ transcriptEx with processing_time := 2 },
         { transcriptEx with processing_time := 2 }] ∧
    (process_batch false false false trBatch drBatch elBatch
        ["a", "b", "c"] 2 [2, 0, 1]).2
      = [("b", "decode failure")] ∧
    (process_batch false false false trBatch drBatch elBatch
          ["a", "b", "c"] 2 [2, 0, 1]).1.length
        + (process_batch false false false trBatch drBatch elBatch
          ["a", "b", "c"] 2 [2, 0, 1]).2.length = 3 := by
  obtain ⟨h1, h2, h3⟩ := process_batch_failure_isolation false false false
    trBatch drBatch elBatch ["a", "b", "c"] 2 [2, 0, 1] (by decide)
  refine ⟨?_, ?_, ?_⟩
  · rw [h1]; rfl
  · rw [h2]; rfl
  · simpa using h3

/-! ### Claim C6 -/

/-- C6: for every complete completion schedule, the successful
transcripts come back ordered by the position of their source input in
the supplied list — the closed form is schedule-independent, so two runs
with different completion orders return the same results list. -/
theorem process_batch_input_order {I E : Type} (eb hb pb : Bool)
    (trf : I → Except E Transcript)
    (drf : I → Except E (List Speaker × List Turn)) (elf : I → ℚ)
    (audio_paths : List I) (mc : Nat) (order1 order2 : List Nat)
    (h1 : ∀ j < audio_paths.length, j ∈ order1)
    (h2 : ∀ j < audio_paths.length, j ∈ order2) :
    (process_batch eb hb pb trf drf elf audio_paths mc order1).1
        = audio_paths.filterMap (fun p =>
            exceptOk (process eb hb pb (trf p) (drf p) (elf p))) ∧
    (process_batch eb hb pb trf drf elf audio_paths mc order1).1
        = (process_batch eb hb pb trf drf elf audio_paths mc order2).1 := by
  rw [process_batch_eq eb hb pb trf drf elf audio_paths mc order1 h1,
    process_batch_eq eb hb pb trf drf elf audio_paths mc order2 h2]
  exact ⟨rfl, rfl⟩

/-- Witness for C6: two inputs, with the later input completing first
(`order = [1, 0]`): the results still carry input order `a` then `c`,
and agree with the input-order schedule `[0, 1]`. -/
theorem process_batch_input_order_witness :
    (process_batch false false false trDistinct drBatch elBatch
        ["a", "c"] 2 [1, 0]).1
      = [{ transcriptEx with id := "a", processing_time := 2 },
         { transcriptEx with id := "c", processing_time := 2 }] ∧
    (process_batch false false false trDistinct drBatch elBatch
        ["a", "c"] 2 [1, 0]).1
      = (process_batch false false false trDistinct drBatch elBatch
        ["a", "c"] 2 [0, 1]).1 := by
  obtain ⟨h1, h2⟩ := process_batch_input_order false false false
    trDistinct drBatch elBatch ["a", "c"] 2 [1, 0] [0, 1]
    (by decide) (by decide)
  refine ⟨?_, h2⟩
  rw [h1]; rfl

/-! ### Claim C7 -/

/-- Reference sequential driver, following the specification sentence
for the equivalence: invoke `process` once per input, in input order,
appending each success to the results and each failure to the
`(audio path, error)` records. -/
def process_sequential_ref {I E : Type} (eb hb pb : Bool)
    (trf : I → Except E Transcript)
    (drf : I → Except E (List Speaker × List Turn)) (elf : I → ℚ)
    (audio_paths : List I) : List Transcript × List (I × E) :=
  audio_paths.foldl (fun acc p =>
    collectStep acc (p, process eb hb pb (trf p) (drf p) (elf p))) ([], [])

/-- C7: `process_batch` with `max_concurrent = 1` — under which the
semaphore admits the tasks one at a time in creation order, so the
completion schedule is the input order — produces exactly the successful
transcripts and per-item failure records of the sequential driver; the
two differ only in wall-clock time, which is outside the model. -/
theorem process_batch_sequential_equiv {I E : Type} (eb hb pb : Bool)
    (trf : I → Except E Transcript)
    (drf : I → Except E (List Speaker × List Turn)) (elf : I → ℚ)
    (audio_paths : List I) :
    process_batch eb hb pb trf drf elf audio_paths 1
        (List.range audio_paths.length)
      = process_sequential_ref eb hb pb trf drf elf audio_paths := by
  rw [process_batch_eq eb hb pb trf drf elf audio_paths 1
    (List.range audio_paths.length) (fun j hj => List.mem_range.mpr hj)]
  have hseq : process_sequential_ref eb hb pb trf drf elf audio_paths
      = collectResults (audio_paths.map (fun p =>
          (p, process eb hb pb (trf p) (drf p) (elf p)))) := by
    unfold process_sequential_ref collectResults
    rw [List.foldl_map]
  rw [hseq, collectResults_eq]
  simp only [List.filterMap_map]
  exact Prod.ext rfl rfl

end Audio2Txt
